import Mathlib

/-!
Shallow embedding of the brainfinterpreter sources (src/src/main.rs).

The Rust program is a tree-walking interpreter: a `Tokenizer` turns source
text into a list of `Token`s, `Memory` is a vector of byte cells, and
`Brain` holds the program counter, the instruction list, the address
pointer and the memory, executing one instruction per `tick`.

Modelling choices:
  * `u8` cells are `Nat` values with an explicit `% 256` where the source
    does byte arithmetic (release-profile wrapping semantics).
  * `usize` is `Nat` with an explicit `% 2 ^ 64` where the source can
    overflow or underflow a pointer (release-profile wrapping semantics).
  * Every Rust panic becomes an `Err` value; an operation returns the
    state as it stood at the moment of the panic together with the error,
    so that side effects that happened before the panic (such as a byte
    already pulled from stdin) remain observable.
  * stdin and stdout are ambient byte streams; `Exec` packages them with
    the `Brain` value, mirroring the process plus its standard streams.
-/

namespace BF

/-- Width of `usize` on the (64-bit) target: pointer arithmetic wraps modulo this
value, which is 2 to the 64th power written as a literal. -/
def USIZE : Nat := 18446744073709551616

/-- The token enum of the source (`enum Token`), one constructor per recognized symbol. -/
inductive Token
  | angleBracketOpen
  | angleBracketClose
  | plus
  | minus
  | dot
  | comma
  | bracketOpen
  | bracketClose
  deriving DecidableEq, Repr

/-- The fatal conditions of the source; each constructor corresponds to one panic site. -/
inductive Err
  | indexOutOfBounds
  | pointerOutOfBounds
  | noInput
  | noMatchingClosing
  | noMatchingOpening
  | noInstruction
  deriving DecidableEq, Repr

/-- `struct Memory { cells: Vec<u8> }`. -/
structure Memory where
  cells : List Nat
  deriving DecidableEq, Repr

/-- `Memory::new(size)`: `size` cells, all zero. -/
def Memory.new (size : Nat) : Memory := ⟨List.replicate size 0⟩

/-- `Memory::len`. -/
def Memory.len (m : Memory) : Nat := m.cells.length

/-- `Memory::get`: `self.cells[index]`, panicking (index panic) when out of range. -/
def Memory.get (m : Memory) (index : Nat) : Except Err Nat :=
  if index < m.cells.length then .ok (m.cells.getD index 0)
  else .error .indexOutOfBounds

/-- `Memory::set`: `self.cells[index] = value`, panicking (index panic) when out of range. -/
def Memory.set (m : Memory) (index value : Nat) : Except Err Memory :=
  if index < m.cells.length then .ok ⟨m.cells.set index value⟩
  else .error .indexOutOfBounds

/-- `struct Brain`: program counter, instruction list, address pointer, memory. -/
structure Brain where
  program_counter : Nat
  instructions : List Token
  address_pointer : Nat
  memory : Memory
  deriving DecidableEq, Repr

/-- `Brain::new`. -/
def Brain.new (instructions : List Token) (memory : Memory) : Brain :=
  ⟨0, instructions, 0, memory⟩

/-- `Brain::move_left`: `self.address_pointer -= 1` (usize wrap), then panic when the
new pointer exceeds the memory length. -/
def Brain.move_left (b : Brain) : Brain × Option Err :=
  if (b.address_pointer + (USIZE - 1)) % USIZE > b.memory.len then
    ({ b with address_pointer := (b.address_pointer + (USIZE - 1)) % USIZE },
     some .pointerOutOfBounds)
  else ({ b with address_pointer := (b.address_pointer + (USIZE - 1)) % USIZE }, none)

/-- `Brain::move_right`: `self.address_pointer += 1` (usize wrap), then panic when the
new pointer exceeds the memory length. -/
def Brain.move_right (b : Brain) : Brain × Option Err :=
  if (b.address_pointer + 1) % USIZE > b.memory.len then
    ({ b with address_pointer := (b.address_pointer + 1) % USIZE }, some .pointerOutOfBounds)
  else ({ b with address_pointer := (b.address_pointer + 1) % USIZE }, none)

/-- `Brain::increment`: `set(p, get(p) + 1)` with u8 wraparound. -/
def Brain.increment (b : Brain) : Brain × Option Err :=
  match b.memory.get b.address_pointer with
  | .error e => (b, some e)
  | .ok v =>
    match b.memory.set b.address_pointer ((v + 1) % 256) with
    | .error e => (b, some e)
    | .ok m => ({ b with memory := m }, none)

/-- `Brain::decrement`: `set(p, get(p) - 1)` with u8 wraparound. -/
def Brain.decrement (b : Brain) : Brain × Option Err :=
  match b.memory.get b.address_pointer with
  | .error e => (b, some e)
  | .ok v =>
    match b.memory.set b.address_pointer ((v + 255) % 256) with
    | .error e => (b, some e)
    | .ok m => ({ b with memory := m }, none)

/-- The loop body of `Brain::find_matching_closing`: walk the token list starting at
index `idx`, with `open_brackets` opens seen so far and not yet closed. -/
def findClosingAux : List Token → Nat → Nat → Option Nat
  | [], _, _ => none
  | t :: rest, idx, open_brackets =>
    match t with
    | .bracketOpen => findClosingAux rest (idx + 1) (open_brackets + 1)
    | .bracketClose =>
      if open_brackets = 0 then some idx
      else findClosingAux rest (idx + 1) (open_brackets - 1)
    | _ => findClosingAux rest (idx + 1) open_brackets

/-- `Brain::find_matching_closing`: iterate `.enumerate().skip(self.program_counter)`,
i.e. the scan starts at the current program counter itself. -/
def Brain.find_matching_closing (b : Brain) : Option Nat :=
  findClosingAux (b.instructions.drop b.program_counter) b.program_counter 0

/-- The loop body of `Brain::find_matching_opening`: walk a reversed prefix of the
token list whose head sits at index `idx`, with `close_brackets` closes seen so far
and not yet matched. -/
def findOpeningAux : List Token → Nat → Nat → Option Nat
  | [], _, _ => none
  | t :: rest, idx, close_brackets =>
    match t with
    | .bracketOpen =>
      if close_brackets = 0 then some idx
      else findOpeningAux rest (idx - 1) (close_brackets - 1)
    | .bracketClose => findOpeningAux rest (idx - 1) (close_brackets + 1)
    | _ => findOpeningAux rest (idx - 1) close_brackets

/-- `Brain::find_matching_opening`: iterate `.enumerate().take(self.program_counter).rev()`,
i.e. scan backward starting just before the current program counter. -/
def Brain.find_matching_opening (b : Brain) : Option Nat :=
  findOpeningAux ((b.instructions.take b.program_counter).reverse) (b.program_counter - 1) 0

/-- `Brain::loop_start`: with a zero current cell, jump to the result of the forward
search (panicking when it finds nothing); otherwise fall through. -/
def Brain.loop_start (b : Brain) : Brain × Option Err :=
  match b.memory.get b.address_pointer with
  | .error e => (b, some e)
  | .ok v =>
    if v = 0 then
      match b.find_matching_closing with
      | none => (b, some .noMatchingClosing)
      | some i => ({ b with program_counter := i }, none)
    else (b, none)

/-- `Brain::loop_end`: with a nonzero current cell, jump to the result of the backward
search (panicking when it finds nothing); otherwise fall through. -/
def Brain.loop_end (b : Brain) : Brain × Option Err :=
  match b.memory.get b.address_pointer with
  | .error e => (b, some e)
  | .ok v =>
    if v ≠ 0 then
      match b.find_matching_opening with
      | none => (b, some .noMatchingOpening)
      | some i => ({ b with program_counter := i }, none)
    else (b, none)

/-- A `Brain` together with the process's standard streams (lists of byte values). -/
structure Exec where
  brain : Brain
  stdin : List Nat
  stdout : List Nat
  deriving DecidableEq, Repr

/-- `Brain::output`: read the current cell and emit it to stdout. -/
def Exec.output (w : Exec) : Exec × Option Err :=
  match w.brain.memory.get w.brain.address_pointer with
  | .error e => (w, some e)
  | .ok v => ({ w with stdout := w.stdout ++ [v] }, none)

/-- `Brain::input`: pull one byte from stdin (panicking when the stream is empty),
then write it into the current cell; the byte is consumed before the write's bounds
check runs, because Rust evaluates the argument of `Memory::set` first. -/
def Exec.input (w : Exec) : Exec × Option Err :=
  match w.stdin with
  | [] => (w, some .noInput)
  | byte :: rest =>
    let w' := { w with stdin := rest }
    match w'.brain.memory.set w'.brain.address_pointer byte with
    | .error e => (w', some e)
    | .ok m => ({ w' with brain := { w'.brain with memory := m } }, none)

/-- Lift a `Brain`-level operation result into an `Exec`-level one. -/
def liftB (w : Exec) (r : Brain × Option Err) : Exec × Option Err :=
  ({ w with brain := r.1 }, r.2)

/-- `Brain::tick`: fetch the instruction at the program counter (panicking when there
is none), dispatch, then advance the program counter by one unconditionally. -/
def tick (w : Exec) : Exec × Option Err :=
  match w.brain.instructions[w.brain.program_counter]? with
  | none => (w, some .noInstruction)
  | some t =>
    let r : Exec × Option Err :=
      match t with
      | .angleBracketOpen => liftB w w.brain.move_left
      | .angleBracketClose => liftB w w.brain.move_right
      | .plus => liftB w w.brain.increment
      | .minus => liftB w w.brain.decrement
      | .dot => w.output
      | .comma => w.input
      | .bracketOpen => liftB w w.brain.loop_start
      | .bracketClose => liftB w w.brain.loop_end
    match r.2 with
    | some e => (r.1, some e)
    | none =>
      ({ r.1 with brain := { r.1.brain with program_counter := r.1.brain.program_counter + 1 } },
       none)

/-- The character-to-token match of `Tokenizer::tokenize`. -/
def charToToken (c : Char) : Option Token :=
  if c = '<' then some .angleBracketOpen
  else if c = '>' then some .angleBracketClose
  else if c = '+' then some .plus
  else if c = '-' then some .minus
  else if c = '.' then some .dot
  else if c = ',' then some .comma
  else if c = '[' then some .bracketOpen
  else if c = ']' then some .bracketClose
  else none

/-- `struct Tokenizer { input: Vec<char> }`. -/
structure Tokenizer where
  input : List Char

/-- `Tokenizer::tokenize`: `filter_map` of the eight-symbol match over the input. -/
def Tokenizer.tokenize (t : Tokenizer) : List Token :=
  t.input.filterMap charToToken

/-- The `cell_count` computation of `main`: the number of `Token::Plus` in the program. -/
def cell_count (tokens : List Token) : Nat :=
  (tokens.filter (fun t => match t with | .plus => true | _ => false)).length

/-- The setup part of `main`: tokenize the source text, size memory by the number of
Plus tokens, and build the engine. -/
def setup (text : List Char) : Brain :=
  let tokens := Tokenizer.tokenize ⟨text⟩
  Brain.new tokens (Memory.new (cell_count tokens))

/-- Modelled from the spec's matching notion: the LoopEnd matching the LoopStart at
`pc`, found by scanning forward from the instruction after `pc` with a nesting
counter starting at 0. -/
def specForwardMatch (prog : List Token) (pc : Nat) : Option Nat :=
  findClosingAux (prog.drop (pc + 1)) (pc + 1) 0

/-- Modelled from the spec's backward search: scan positions `pc - 1, pc - 2, ..., 0`
with a nesting counter; each LoopStart at counter 0 is the match, otherwise a
LoopStart decrements and a LoopEnd increments the counter. The first argument of the
recursion is the number of positions still to scan. -/
def sbsGo (prog : List Token) : Nat → Nat → Option Nat
  | 0, _ => none
  | i + 1, counter =>
    match prog.getD i .plus with
    | .bracketOpen => if counter = 0 then some i else sbsGo prog i (counter - 1)
    | .bracketClose => sbsGo prog i (counter + 1)
    | _ => sbsGo prog i counter

/-- Modelled from the spec's backward search, starting just before `pc`. -/
def specBackwardScan (prog : List Token) (pc : Nat) : Option Nat :=
  sbsGo prog pc 0

/-- The list of the eight recognized source characters, in the order of the source match. -/
def recognizedChars : List Char := ['<', '>', '+', '-', '.', ',', '[', ']']

/-! ### Helper lemmas -/

/-- A forward bracket scan that finds no close at nesting `c` finds none at `c + 1` either:
closing at a deeper nesting level requires passing through the shallower one. -/
theorem findClosingAux_none_mono (l : List Token) :
    ∀ (i c : Nat), findClosingAux l i c = none → findClosingAux l i (c + 1) = none := by
  induction l with
  | nil => intro i c _; rfl
  | cons t rest ih =>
    intro i c h
    cases t with
    | bracketOpen =>
      simp only [findClosingAux] at h ⊢
      exact ih _ _ h
    | bracketClose =>
      simp only [findClosingAux] at h ⊢
      cases c with
      | zero => simp at h
      | succ c' =>
        rw [if_neg (Nat.succ_ne_zero c')] at h
        rw [if_neg (Nat.succ_ne_zero (c' + 1))]
        simpa using ih _ _ (by simpa using h)
    | angleBracketOpen =>
      simp only [findClosingAux] at h ⊢; exact ih _ _ h
    | angleBracketClose =>
      simp only [findClosingAux] at h ⊢; exact ih _ _ h
    | plus =>
      simp only [findClosingAux] at h ⊢; exact ih _ _ h
    | minus =>
      simp only [findClosingAux] at h ⊢; exact ih _ _ h
    | dot =>
      simp only [findClosingAux] at h ⊢; exact ih _ _ h
    | comma =>
      simp only [findClosingAux] at h ⊢; exact ih _ _ h

/-- The source's reversed-prefix iteration agrees with the spec's index-descending
backward scan, for every starting nesting counter. -/
theorem findOpeningAux_take_reverse (prog : List Token) :
    ∀ (pc : Nat), pc ≤ prog.length → ∀ (c : Nat),
      findOpeningAux ((prog.take pc).reverse) (pc - 1) c = sbsGo prog pc c := by
  intro pc
  induction pc with
  | zero => intro _ c; simp [findOpeningAux, sbsGo]
  | succ k ih =>
    intro h c
    have hk : k < prog.length := h
    have hgd : prog.getD k .plus = prog[k] := by
      simp [List.getD_eq_getElem?_getD, List.getElem?_eq_getElem hk]
    have htake : (prog.take (k + 1)).reverse = prog[k] :: (prog.take k).reverse := by
      rw [List.take_succ, List.getElem?_eq_getElem hk]
      simp
    rw [htake]
    cases hpk : prog[k] with
    | bracketOpen =>
      simp only [findOpeningAux, sbsGo, hgd, hpk, Nat.add_sub_cancel]
      by_cases hc : c = 0
      · rw [if_pos hc, if_pos hc]
      · rw [if_neg hc, if_neg hc]
        exact ih (Nat.le_of_lt hk) _
    | bracketClose =>
      simp only [findOpeningAux, sbsGo, hgd, hpk, Nat.add_sub_cancel]
      exact ih (Nat.le_of_lt hk) _
    | angleBracketOpen =>
      simp only [findOpeningAux, sbsGo, hgd, hpk, Nat.add_sub_cancel]
      exact ih (Nat.le_of_lt hk) _
    | angleBracketClose =>
      simp only [findOpeningAux, sbsGo, hgd, hpk, Nat.add_sub_cancel]
      exact ih (Nat.le_of_lt hk) _
    | plus =>
      simp only [findOpeningAux, sbsGo, hgd, hpk, Nat.add_sub_cancel]
      exact ih (Nat.le_of_lt hk) _
    | minus =>
      simp only [findOpeningAux, sbsGo, hgd, hpk, Nat.add_sub_cancel]
      exact ih (Nat.le_of_lt hk) _
    | dot =>
      simp only [findOpeningAux, sbsGo, hgd, hpk, Nat.add_sub_cancel]
      exact ih (Nat.le_of_lt hk) _
    | comma =>
      simp only [findOpeningAux, sbsGo, hgd, hpk, Nat.add_sub_cancel]
      exact ih (Nat.le_of_lt hk) _

/-- A character outside the eight recognized symbols maps to no token. -/
theorem charToToken_eq_none (c : Char) (hc : c ∉ recognizedChars) : charToToken c = none := by
  simp only [recognizedChars, List.mem_cons, List.not_mem_nil, or_false, not_or] at hc
  obtain ⟨h1, h2, h3, h4, h5, h6, h7, h8⟩ := hc
  simp [charToToken, h1, h2, h3, h4, h5, h6, h7, h8]

/-- Only the character `+` maps to the `plus` token. -/
theorem charToToken_plus {c : Char} (h : charToToken c = some Token.plus) : c = '+' := by
  unfold charToToken at h
  split_ifs at h <;> simp_all

/-- The source's `filter`-and-`count` of Plus tokens is `List.count`. -/
theorem cell_count_eq_count (l : List Token) : cell_count l = l.count Token.plus := by
  unfold cell_count List.count
  rw [List.countP_eq_length_filter]
  congr 1
  apply List.filter_congr
  intro t _
  cases t <;> decide


/-- A successful MoveLeft leaves the pointer at most the memory length. -/
theorem move_left_inv (b b' : Brain) (h : Brain.move_left b = (b', none)) :
    b'.address_pointer ≤ b'.memory.len := by
  unfold Brain.move_left at h
  split at h
  · exact absurd (congrArg Prod.snd h) (by intro hx; exact Option.noConfusion hx)
  · next hc =>
    have h1 := congrArg Prod.fst h
    simp only at h1
    rw [← h1]
    exact Nat.le_of_not_lt hc

/-- A successful MoveRight leaves the pointer at most the memory length. -/
theorem move_right_inv (b b' : Brain) (h : Brain.move_right b = (b', none)) :
    b'.address_pointer ≤ b'.memory.len := by
  unfold Brain.move_right at h
  split at h
  · exact absurd (congrArg Prod.snd h) (by intro hx; exact Option.noConfusion hx)
  · next hc =>
    have h1 := congrArg Prod.fst h
    simp only at h1
    rw [← h1]
    exact Nat.le_of_not_lt hc

/-- A successful Memory.set preserves the memory length. -/
theorem set_preserves_len (m m' : Memory) (i v : Nat) (h : Memory.set m i v = .ok m') :
    m'.len = m.len := by
  unfold Memory.set at h
  split at h
  · injection h with h1
    rw [← h1]
    simp [Memory.len]
  · exact Except.noConfusion h

/-- A successful Increment changes neither the pointer nor the memory length. -/
theorem increment_inv (b b' : Brain) (hp : b.address_pointer ≤ b.memory.len)
    (h : Brain.increment b = (b', none)) : b'.address_pointer ≤ b'.memory.len := by
  cases hg : b.memory.get b.address_pointer with
  | error e => simp only [Brain.increment, hg] at h; simp at h
  | ok v =>
    cases hset : b.memory.set b.address_pointer ((v + 1) % 256) with
    | error e => simp only [Brain.increment, hg, hset] at h; simp at h
    | ok m =>
      simp only [Brain.increment, hg, hset] at h
      injection h with h1 h2
      rw [← h1]
      have hm := set_preserves_len b.memory m b.address_pointer ((v + 1) % 256) hset
      show b.address_pointer ≤ m.len
      rw [hm]
      exact hp

/-- A successful Decrement changes neither the pointer nor the memory length. -/
theorem decrement_inv (b b' : Brain) (hp : b.address_pointer ≤ b.memory.len)
    (h : Brain.decrement b = (b', none)) : b'.address_pointer ≤ b'.memory.len := by
  cases hg : b.memory.get b.address_pointer with
  | error e => simp only [Brain.decrement, hg] at h; simp at h
  | ok v =>
    cases hset : b.memory.set b.address_pointer ((v + 255) % 256) with
    | error e => simp only [Brain.decrement, hg, hset] at h; simp at h
    | ok m =>
      simp only [Brain.decrement, hg, hset] at h
      injection h with h1 h2
      rw [← h1]
      have hm := set_preserves_len b.memory m b.address_pointer ((v + 255) % 256) hset
      show b.address_pointer ≤ m.len
      rw [hm]
      exact hp

/-- A successful LoopStart changes only the program counter. -/
theorem loop_start_inv (b b' : Brain) (hp : b.address_pointer ≤ b.memory.len)
    (h : Brain.loop_start b = (b', none)) : b'.address_pointer ≤ b'.memory.len := by
  cases hg : b.memory.get b.address_pointer with
  | error e => simp only [Brain.loop_start, hg] at h; simp at h
  | ok v =>
    simp only [Brain.loop_start, hg] at h
    by_cases hv : v = 0
    · rw [if_pos hv] at h
      cases hfmc : b.find_matching_closing with
      | none => rw [hfmc] at h; simp at h
      | some i =>
        rw [hfmc] at h
        injection h with h1 h2
        rw [← h1]
        exact hp
    · rw [if_neg hv] at h
      injection h with h1 h2
      rw [← h1]
      exact hp

/-- A successful LoopEnd changes only the program counter. -/
theorem loop_end_inv (b b' : Brain) (hp : b.address_pointer ≤ b.memory.len)
    (h : Brain.loop_end b = (b', none)) : b'.address_pointer ≤ b'.memory.len := by
  cases hg : b.memory.get b.address_pointer with
  | error e => simp only [Brain.loop_end, hg] at h; simp at h
  | ok v =>
    simp only [Brain.loop_end, hg] at h
    by_cases hv : v ≠ 0
    · rw [if_pos hv] at h
      cases hfmo : b.find_matching_opening with
      | none => rw [hfmo] at h; simp at h
      | some i =>
        rw [hfmo] at h
        injection h with h1 h2
        rw [← h1]
        exact hp
    · rw [if_neg hv] at h
      injection h with h1 h2
      rw [← h1]
      exact hp

/-- A successful Output changes neither the pointer nor the memory. -/
theorem output_inv (w w' : Exec) (hp : w.brain.address_pointer ≤ w.brain.memory.len)
    (h : Exec.output w = (w', none)) :
    w'.brain.address_pointer ≤ w'.brain.memory.len := by
  cases hg : w.brain.memory.get w.brain.address_pointer with
  | error e => simp only [Exec.output, hg] at h; simp at h
  | ok v =>
    simp only [Exec.output, hg] at h
    injection h with h1 h2
    rw [← h1]
    exact hp

/-- A successful Input changes neither the pointer nor the memory length. -/
theorem input_inv (w w' : Exec) (hp : w.brain.address_pointer ≤ w.brain.memory.len)
    (h : Exec.input w = (w', none)) :
    w'.brain.address_pointer ≤ w'.brain.memory.len := by
  cases hs : w.stdin with
  | nil => simp only [Exec.input, hs] at h; simp at h
  | cons byte rest =>
    simp only [Exec.input, hs] at h
    cases hset : w.brain.memory.set w.brain.address_pointer byte with
    | error e =>
      rw [show ({ w with stdin := rest } : Exec).brain = w.brain from rfl] at h
      rw [hset] at h
      simp at h
    | ok m =>
      rw [show ({ w with stdin := rest } : Exec).brain = w.brain from rfl] at h
      rw [hset] at h
      injection h with h1 h2
      rw [← h1]
      have hm := set_preserves_len w.brain.memory m w.brain.address_pointer byte hset
      show w.brain.address_pointer ≤ m.len
      rw [hm]
      exact hp

/-! ### Claim theorems -/

/-- C1: the spec says a LoopStart with a zero cell resumes one past its matching
LoopEnd, e.g. for tokens `[ [ ] ]` the match of index 0 is index 3 and execution
resumes at 4. The code's forward scan starts at the program counter itself, counts
the current LoopStart as an extra nesting level, finds nothing, and panics: at this
input the balanced-nesting match exists (index 3) but `find_matching_closing`
returns `none` and `loop_start` fails. -/
theorem c1_forward_scan_misses_matching_close :
    specForwardMatch [Token.bracketOpen, Token.bracketOpen,
        Token.bracketClose, Token.bracketClose] 0 = some 3
    ∧ Brain.find_matching_closing
        ⟨0, [Token.bracketOpen, Token.bracketOpen, Token.bracketClose, Token.bracketClose],
         0, ⟨[0]⟩⟩ = none
    ∧ Brain.loop_start
        ⟨0, [Token.bracketOpen, Token.bracketOpen, Token.bracketClose, Token.bracketClose],
         0, ⟨[0]⟩⟩ =
      (⟨0, [Token.bracketOpen, Token.bracketOpen, Token.bracketClose, Token.bracketClose],
        0, ⟨[0]⟩⟩, some Err.noMatchingClosing) :=
  ⟨rfl, rfl, rfl⟩

/-- C2 counterexample: the claim says MoveRight fails whenever the resulting pointer
is greater than or equal to the memory length; with one cell and pointer 0 the
resulting pointer 1 equals the length, yet the operation succeeds. -/
theorem c2_counterexample :
    0 + 1 ≥ Memory.len ⟨[0]⟩
    ∧ Brain.move_right ⟨0, [], 0, ⟨[0]⟩⟩ = (⟨0, [], 1, ⟨[0]⟩⟩, none) :=
  ⟨by decide, by decide⟩

/-- C2 (amended): MoveRight increments the pointer by 1 and fails with the
out-of-bounds condition exactly when the resulting pointer is strictly greater than
the memory length; a resulting pointer equal to the length succeeds. Program,
memory contents and program counter are unchanged either way. -/
theorem c2_move_right_characterization (b : Brain) (h : b.address_pointer + 1 < USIZE) :
    Brain.move_right b =
      ({ b with address_pointer := b.address_pointer + 1 },
       if b.address_pointer + 1 > b.memory.len then some Err.pointerOutOfBounds else none) := by
  unfold Brain.move_right
  rw [Nat.mod_eq_of_lt h]
  split <;> rfl

/-- C2 witness: at pointer 0 over empty memory the hypothesis holds and the theorem
evaluates: the pointer becomes 1 and, since 1 > 0, the operation reports the error. -/
theorem c2_move_right_witness :
    0 + 1 < USIZE
    ∧ (Brain.move_right ⟨0, [], 0, ⟨[]⟩⟩).1.address_pointer = 1
    ∧ (Brain.move_right ⟨0, [], 0, ⟨[]⟩⟩).2 = some Err.pointerOutOfBounds := by
  refine ⟨by decide, ?_, ?_⟩
  · rw [c2_move_right_characterization ⟨0, [], 0, ⟨[]⟩⟩ (by decide)]
  · rw [c2_move_right_characterization ⟨0, [], 0, ⟨[]⟩⟩ (by decide)]
    decide

/-- C3 counterexample: the claim says Increment and Decrement never fail, but with
zero-length memory (reachable, e.g. from a program with no Plus token) Increment
fails with the index out-of-bounds condition. -/
theorem c3_counterexample :
    (Brain.increment ⟨0, [Token.plus], 0, ⟨[]⟩⟩).2 = some Err.indexOutOfBounds := rfl

/-- C3 (amended): whenever the address pointer is a valid memory index, Increment
and Decrement rewrite the current cell with 8-bit unsigned wraparound arithmetic
(add 1, respectively add 255, modulo 256) and succeed; they fail with an
out-of-bounds condition exactly when the pointer is not a valid index. -/
theorem c3_wraparound (b : Brain) (h : b.address_pointer < b.memory.cells.length) :
    Brain.increment b =
      ({ b with memory := ⟨b.memory.cells.set b.address_pointer
          ((b.memory.cells.getD b.address_pointer 0 + 1) % 256)⟩ }, none)
    ∧ Brain.decrement b =
      ({ b with memory := ⟨b.memory.cells.set b.address_pointer
          ((b.memory.cells.getD b.address_pointer 0 + 255) % 256)⟩ }, none) := by
  have hget : b.memory.get b.address_pointer = .ok (b.memory.cells.getD b.address_pointer 0) := by
    simp [Memory.get, h]
  have hset : ∀ val, b.memory.set b.address_pointer val =
      .ok ⟨b.memory.cells.set b.address_pointer val⟩ := by
    intro val
    simp [Memory.set, h]
  constructor
  · simp only [Brain.increment, hget, hset]
  · simp only [Brain.decrement, hget, hset]

/-- C3 witness: incrementing a cell holding 255 yields 0 and decrementing a cell
holding 0 yields 255, via the amended theorem at concrete one-cell states. -/
theorem c3_wraparound_witness :
    0 < Memory.len ⟨[255]⟩
    ∧ Brain.increment ⟨0, [], 0, ⟨[255]⟩⟩ = (⟨0, [], 0, ⟨[0]⟩⟩, none)
    ∧ Brain.decrement ⟨0, [], 0, ⟨[0]⟩⟩ = (⟨0, [], 0, ⟨[255]⟩⟩, none) := by
  refine ⟨by decide, ?_, ?_⟩
  · rw [(c3_wraparound ⟨0, [], 0, ⟨[255]⟩⟩ (by decide)).1]
    decide
  · rw [(c3_wraparound ⟨0, [], 0, ⟨[0]⟩⟩ (by decide)).2]
    decide

/-- C4: the memory built before execution has exactly as many cells as there are
Plus tokens in the tokenized program; when the source contains no `+` the memory
has zero cells and every cell access, read or write at any index, fails immediately
with the out-of-bounds condition. -/
theorem c4_memory_sizing (text : List Char) :
    (setup text).memory.len = (Tokenizer.tokenize ⟨text⟩).count Token.plus
    ∧ ('+' ∉ text →
        (setup text).memory.len = 0
        ∧ ∀ i v, Memory.get (setup text).memory i = .error .indexOutOfBounds
               ∧ Memory.set (setup text).memory i v = .error .indexOutOfBounds) := by
  have hA : (setup text).memory.len = (Tokenizer.tokenize ⟨text⟩).count Token.plus := by
    simp [setup, Brain.new, Memory.new, Memory.len, cell_count_eq_count]
  refine ⟨hA, fun hplus => ?_⟩
  have hcount : (Tokenizer.tokenize ⟨text⟩).count Token.plus = 0 := by
    rw [List.count_eq_zero]
    intro hmem
    obtain ⟨c, hc, hct⟩ := List.mem_filterMap.mp hmem
    exact hplus (charToToken_plus hct ▸ hc)
  have hlen0 : (setup text).memory.cells.length = 0 := by
    have hz := hA.trans hcount
    simpa [Memory.len] using hz
  refine ⟨by simpa [Memory.len] using hlen0, fun i v => ?_⟩
  constructor
  · simp [Memory.get, hlen0]
  · simp [Memory.set, hlen0]

/-- C4 witness: the source `-[` has no `+`, so its memory has zero cells and reading
cell 0 fails out of bounds. -/
theorem c4_memory_sizing_witness :
    '+' ∉ (['-', '['] : List Char)
    ∧ (setup ['-', '[']).memory.len = 0
    ∧ Memory.get (setup ['-', '[']).memory 0 = .error .indexOutOfBounds := by
  refine ⟨by decide, ((c4_memory_sizing ['-', '[']).2 (by decide)).1,
    (((c4_memory_sizing ['-', '[']).2 (by decide)).2 0 0).1⟩

/-- C5: at a LoopEnd with a nonzero current cell, the engine finds the matching
LoopStart by the backward balanced-nesting scan starting just before the program
counter, sets the program counter to that index, and the unconditional advance then
leaves execution at the first instruction of the loop body (match index plus one). -/
theorem c5_loop_end_resumes_after_matching_open (w : Exec) (v m : Nat)
    (h1 : w.brain.instructions[w.brain.program_counter]? = some Token.bracketClose)
    (h2 : w.brain.memory.get w.brain.address_pointer = .ok v)
    (h3 : v ≠ 0)
    (h4 : specBackwardScan w.brain.instructions w.brain.program_counter = some m) :
    tick w = ({ w with brain := { w.brain with program_counter := m + 1 } }, none) := by
  have hpc : w.brain.program_counter < w.brain.instructions.length := by
    by_contra hn
    rw [List.getElem?_eq_none (Nat.le_of_not_lt hn)] at h1
    exact Option.noConfusion h1
  have hfmo : w.brain.find_matching_opening = some m := by
    unfold Brain.find_matching_opening
    rw [findOpeningAux_take_reverse w.brain.instructions w.brain.program_counter
      (Nat.le_of_lt hpc) 0]
    exact h4
  have hle : w.brain.loop_end = ({ w.brain with program_counter := m }, none) := by
    simp only [Brain.loop_end, h2, hfmo]
    rw [if_pos h3]
  unfold tick
  rw [h1]
  simp only [liftB, hle]

/-- C5 witness: for tokens `[ + ]` with one nonzero cell and the program counter at
the LoopEnd (index 2), the backward scan finds index 0 and the tick resumes at 1. -/
theorem c5_loop_end_witness :
    specBackwardScan [Token.bracketOpen, Token.plus, Token.bracketClose] 2 = some 0
    ∧ (tick ⟨⟨2, [Token.bracketOpen, Token.plus, Token.bracketClose], 0, ⟨[1]⟩⟩,
        [], []⟩).1.brain.program_counter = 1 := by
  refine ⟨by decide, ?_⟩
  rw [c5_loop_end_resumes_after_matching_open
    ⟨⟨2, [Token.bracketOpen, Token.plus, Token.bracketClose], 0, ⟨[1]⟩⟩, [], []⟩ 1 0
    (by decide) rfl (by decide) (by decide)]

/-- C6: MoveLeft at pointer 0 always fails with the out-of-bounds condition (the
wrapped pointer value never survives into further execution), and at any pointer
greater than 0 (within the invariant pointer at most memory length) it decrements
the pointer by 1 and succeeds. -/
theorem c6_move_left_characterization (b : Brain)
    (hlen : b.memory.len + 1 < USIZE)
    (hinv : b.address_pointer ≤ b.memory.len) :
    (b.address_pointer = 0 → (Brain.move_left b).2 = some Err.pointerOutOfBounds)
    ∧ (0 < b.address_pointer →
        Brain.move_left b = ({ b with address_pointer := b.address_pointer - 1 }, none)) := by
  have hU : USIZE = 18446744073709551616 := rfl
  constructor
  · intro h0
    unfold Brain.move_left
    rw [h0]
    have hmod : (0 + (USIZE - 1)) % USIZE = USIZE - 1 := by
      rw [Nat.zero_add, Nat.mod_eq_of_lt (by omega)]
    rw [hmod, if_pos (by omega)]
  · intro hp
    unfold Brain.move_left
    have hmod : (b.address_pointer + (USIZE - 1)) % USIZE = b.address_pointer - 1 := by
      rw [show b.address_pointer + (USIZE - 1) = (b.address_pointer - 1) + 1 * USIZE by omega,
        Nat.add_mul_mod_self_right, Nat.mod_eq_of_lt (by omega)]
    rw [hmod, if_neg (by omega)]

/-- C6 witness: with one cell, MoveLeft from pointer 0 fails out of bounds, and
MoveLeft from pointer 1 succeeds leaving the pointer at 0. -/
theorem c6_move_left_witness :
    Memory.len ⟨[0]⟩ + 1 < USIZE
    ∧ (Brain.move_left ⟨0, [], 0, ⟨[0]⟩⟩).2 = some Err.pointerOutOfBounds
    ∧ Brain.move_left ⟨0, [], 1, ⟨[0]⟩⟩ = (⟨0, [], 0, ⟨[0]⟩⟩, none) := by
  refine ⟨by decide, ?_, ?_⟩
  · exact (c6_move_left_characterization ⟨0, [], 0, ⟨[0]⟩⟩ (by decide) (by decide)).1 rfl
  · have hres := (c6_move_left_characterization ⟨0, [], 1, ⟨[0]⟩⟩ (by decide) (by decide)).2
      (by decide)
    rw [hres]
    decide

/-- C7: a LoopStart whose balanced-nesting forward match does not exist (no matching
LoopEnd after it), reached with a zero current cell, makes the tick fail fatally
with the no-matching-closing condition; with a nonzero cell LoopStart succeeds
without consulting the search, so the failure occurs only when the jump is taken. -/
theorem c7_unmatched_loop_start_fails (w : Exec)
    (h1 : w.brain.instructions[w.brain.program_counter]? = some Token.bracketOpen)
    (h2 : w.brain.memory.get w.brain.address_pointer = .ok 0)
    (h3 : specForwardMatch w.brain.instructions w.brain.program_counter = none) :
    (tick w).2 = some Err.noMatchingClosing
    ∧ (∀ (b : Brain) (v : Nat), b.memory.get b.address_pointer = .ok v → v ≠ 0 →
        (Brain.loop_start b).2 = none) := by
  constructor
  · have hpc : w.brain.program_counter < w.brain.instructions.length := by
      by_contra hn
      rw [List.getElem?_eq_none (Nat.le_of_not_lt hn)] at h1
      exact Option.noConfusion h1
    have hget : w.brain.instructions[w.brain.program_counter] = Token.bracketOpen := by
      have hx := List.getElem?_eq_getElem hpc
      rw [h1] at hx
      injection hx with hx2
      exact hx2.symm
    have hfmc : w.brain.find_matching_closing = none := by
      unfold Brain.find_matching_closing
      rw [List.drop_eq_getElem_cons hpc, hget]
      simp only [findClosingAux]
      exact findClosingAux_none_mono _ _ _ h3
    have hls : w.brain.loop_start = (w.brain, some Err.noMatchingClosing) := by
      simp only [Brain.loop_start, h2, hfmc]
      rw [if_pos trivial]
    unfold tick
    rw [h1]
    simp only [liftB, hls]
  · intro b v hg hv
    simp only [Brain.loop_start, hg]
    rw [if_neg hv]

/-- C7 witness: the one-token program `[` has no matching LoopEnd; reached with a
zero cell the tick fails with the no-matching-closing condition. -/
theorem c7_unmatched_loop_start_witness :
    specForwardMatch [Token.bracketOpen] 0 = none
    ∧ (tick ⟨⟨0, [Token.bracketOpen], 0, ⟨[0]⟩⟩, [], []⟩).2 = some Err.noMatchingClosing :=
  ⟨by decide, (c7_unmatched_loop_start_fails ⟨⟨0, [Token.bracketOpen], 0, ⟨[0]⟩⟩, [], []⟩
    (by decide) rfl (by decide)).1⟩

/-- C8: the tokenizer emits exactly one instruction per occurrence of a recognized
character, in source order, under the fixed eight-symbol mapping (listing the eight
recognized characters tokenizes to the eight tokens in source order); any other
character produces no instruction and does not shift the surrounding instructions;
tokenization is a total pure function, so it has no error conditions and performs no
bracket-balance validation (the lone `[` tokenizes fine). -/
theorem c8_tokenizer_mapping (xs ys : List Char) (c : Char) :
    (∀ t, charToToken c = some t →
        Tokenizer.tokenize ⟨xs ++ c :: ys⟩ =
          Tokenizer.tokenize ⟨xs⟩ ++ t :: Tokenizer.tokenize ⟨ys⟩)
    ∧ (c ∉ recognizedChars →
        Tokenizer.tokenize ⟨xs ++ c :: ys⟩ =
          Tokenizer.tokenize ⟨xs⟩ ++ Tokenizer.tokenize ⟨ys⟩)
    ∧ Tokenizer.tokenize ⟨recognizedChars⟩ =
        [Token.angleBracketOpen, Token.angleBracketClose, Token.plus, Token.minus,
         Token.dot, Token.comma, Token.bracketOpen, Token.bracketClose]
    ∧ Tokenizer.tokenize ⟨['[']⟩ = [Token.bracketOpen] := by
  refine ⟨fun t ht => ?_, fun hc => ?_, by decide, by decide⟩
  · simp [Tokenizer.tokenize, List.filterMap_append, List.filterMap_cons, ht]
  · simp [Tokenizer.tokenize, List.filterMap_append, List.filterMap_cons,
      charToToken_eq_none c hc]

/-- C8 witness: `a` is not recognized, so tokenizing `+a]` gives the tokens of `+`
followed by the tokens of `]`, with no index shift. -/
theorem c8_tokenizer_witness :
    'a' ∉ recognizedChars
    ∧ Tokenizer.tokenize ⟨['+'] ++ 'a' :: [']']⟩ =
        Tokenizer.tokenize ⟨['+']⟩ ++ Tokenizer.tokenize ⟨[']']⟩ :=
  ⟨by decide, (c8_tokenizer_mapping ['+'] [']'] 'a').2.1 (by decide)⟩

/-- C9: every tick that returns without failing preserves the invariant that the
address pointer is at most the memory length; the bound is reached: MoveRight may
leave the pointer resting exactly at the memory length without error, and the
out-of-bounds failure only surfaces at the next cell access at that pointer. -/
theorem c9_pointer_invariant (w w' : Exec)
    (hp : w.brain.address_pointer ≤ w.brain.memory.len)
    (h : tick w = (w', none)) :
    w'.brain.address_pointer ≤ w'.brain.memory.len
    ∧ Brain.move_right ⟨0, [], 0, ⟨[0]⟩⟩ = (⟨0, [], 1, ⟨[0]⟩⟩, none)
    ∧ Memory.get ⟨[0]⟩ 1 = .error .indexOutOfBounds := by
  refine ⟨?_, by decide, rfl⟩
  unfold tick at h
  cases hfetch : w.brain.instructions[w.brain.program_counter]? with
  | none => rw [hfetch] at h; injection h with h1 h2; exact Option.noConfusion h2
  | some t =>
    rw [hfetch] at h
    cases t with
    | angleBracketOpen =>
      cases hop : Brain.move_left w.brain with
      | mk b2 e2 =>
        rw [hop] at h
        simp only [liftB] at h
        cases e2 with
        | some e => injection h with h1 h2; exact Option.noConfusion h2
        | none =>
          injection h with h1 h2
          rw [← h1]
          exact move_left_inv w.brain b2 hop
    | angleBracketClose =>
      cases hop : Brain.move_right w.brain with
      | mk b2 e2 =>
        rw [hop] at h
        simp only [liftB] at h
        cases e2 with
        | some e => injection h with h1 h2; exact Option.noConfusion h2
        | none =>
          injection h with h1 h2
          rw [← h1]
          exact move_right_inv w.brain b2 hop
    | plus =>
      cases hop : Brain.increment w.brain with
      | mk b2 e2 =>
        rw [hop] at h
        simp only [liftB] at h
        cases e2 with
        | some e => injection h with h1 h2; exact Option.noConfusion h2
        | none =>
          injection h with h1 h2
          rw [← h1]
          exact increment_inv w.brain b2 hp hop
    | minus =>
      cases hop : Brain.decrement w.brain with
      | mk b2 e2 =>
        rw [hop] at h
        simp only [liftB] at h
        cases e2 with
        | some e => injection h with h1 h2; exact Option.noConfusion h2
        | none =>
          injection h with h1 h2
          rw [← h1]
          exact decrement_inv w.brain b2 hp hop
    | dot =>
      cases hop : Exec.output w with
      | mk w2 e2 =>
        rw [hop] at h
        cases e2 with
        | some e => injection h with h1 h2; exact Option.noConfusion h2
        | none =>
          injection h with h1 h2
          rw [← h1]
          exact output_inv w w2 hp hop
    | comma =>
      cases hop : Exec.input w with
      | mk w2 e2 =>
        rw [hop] at h
        cases e2 with
        | some e => injection h with h1 h2; exact Option.noConfusion h2
        | none =>
          injection h with h1 h2
          rw [← h1]
          exact input_inv w w2 hp hop
    | bracketOpen =>
      cases hop : Brain.loop_start w.brain with
      | mk b2 e2 =>
        rw [hop] at h
        simp only [liftB] at h
        cases e2 with
        | some e => injection h with h1 h2; exact Option.noConfusion h2
        | none =>
          injection h with h1 h2
          rw [← h1]
          exact loop_start_inv w.brain b2 hp hop
    | bracketClose =>
      cases hop : Brain.loop_end w.brain with
      | mk b2 e2 =>
        rw [hop] at h
        simp only [liftB] at h
        cases e2 with
        | some e => injection h with h1 h2; exact Option.noConfusion h2
        | none =>
          injection h with h1 h2
          rw [← h1]
          exact loop_end_inv w.brain b2 hp hop

/-- C9 witness: from pointer 0 over one cell, an Increment tick succeeds and the
pointer (0) is still at most the memory length (1). -/
theorem c9_pointer_invariant_witness :
    (0 : Nat) ≤ Memory.len ⟨[0]⟩
    ∧ (⟨⟨1, [Token.plus], 0, ⟨[1]⟩⟩, [], []⟩ : Exec).brain.address_pointer ≤
        (⟨⟨1, [Token.plus], 0, ⟨[1]⟩⟩, [], []⟩ : Exec).brain.memory.len :=
  ⟨by decide, (c9_pointer_invariant ⟨⟨0, [Token.plus], 0, ⟨[0]⟩⟩, [], []⟩
    ⟨⟨1, [Token.plus], 0, ⟨[1]⟩⟩, [], []⟩ (by decide) (by decide)).1⟩

/-- C10: Input is not atomic on error: with a byte available on stdin and the
address pointer not a valid memory index, the byte is pulled off the stream first
and the operation then fails with the index out-of-bounds condition, leaving the
stream shortened by one byte at the moment of the failure. -/
theorem c10_input_consumes_then_fails (w : Exec) (byte : Nat) (rest : List Nat)
    (h1 : w.stdin = byte :: rest)
    (h2 : ¬ w.brain.address_pointer < w.brain.memory.cells.length) :
    Exec.input w = ({ w with stdin := rest }, some Err.indexOutOfBounds) := by
  have hset : w.brain.memory.set w.brain.address_pointer byte = .error .indexOutOfBounds := by
    simp [Memory.set, h2]
  simp only [Exec.input, h1]
  rw [show ({ w with stdin := rest } : Exec).brain = w.brain from rfl]
  rw [hset]

/-- C10 witness: with memory of zero cells and stdin holding the byte 65, Input
fails out of bounds but the byte is gone from the stream. -/
theorem c10_input_witness :
    Exec.input ⟨⟨0, [Token.comma], 0, ⟨[]⟩⟩, [65], []⟩ =
      (⟨⟨0, [Token.comma], 0, ⟨[]⟩⟩, [], []⟩, some Err.indexOutOfBounds) :=
  c10_input_consumes_then_fails ⟨⟨0, [Token.comma], 0, ⟨[]⟩⟩, [65], []⟩ 65 [] rfl (by decide)

end BF
